import Mathlib

/-!
Shallow embedding of the cache-consistency core of fetch-filecache-for-crawling
(current implementation; the module exporting `cacheFetch`).

Modelling conventions:
* JavaScript date values are milliseconds since the epoch; an unparseable date
  (JS `Invalid Date`, whose numeric value is `NaN`) is modelled as `none` of
  `Option Int`.  `NaN` propagates through addition and makes every `<`
  comparison false, which the helpers below reproduce.
* The external JS date parser (`new Date(s).getTime()`) is a parameter
  `pd : String -> Option Int` of every definition that needs it.
* JSON header objects persisted to the `.headers` file are modelled by
  `StoredHeaders`: the `status` and `received` members as dedicated typed
  fields, every other member (lower-cased header names mapping to string
  values) as an insertion-ordered association list.
* A JS object property write preserves the position of an existing key and
  appends a fresh key, which `setField` reproduces.
-/

namespace FetchFilecache

/-- JS truthiness of an optional string: `null`/`undefined` and the empty
string are falsy. -/
def truthyStr : Option String → Bool
  | none => false
  | some s => s ≠ ""

/-- Keep an optional string only when it is truthy. -/
def truthy? (o : Option String) : Option String :=
  match o with
  | some s => if s = "" then none else some s
  | none => none

/-- JS `a || b` on optional strings (empty string is falsy). -/
def jsOrStr (a b : Option String) : Option String :=
  match truthy? a with
  | some s => some s
  | none => b

/-- JS number with `NaN` modelled as `none`: addition propagates `NaN`. -/
def jsAdd : Option Int → Option Int → Option Int
  | some a, some b => some (a + b)
  | _, _ => none

/-- JS `<` on numbers: any comparison involving `NaN` is false. -/
def jsLt : Option Int → Option Int → Bool
  | some a, some b => a < b
  | _, _ => false

/-- JS `>=` on numbers: any comparison involving `NaN` is false. -/
def jsGe : Option Int → Option Int → Bool
  | some a, some b => b ≤ a
  | _, _ => false

/-- Split a character list at a separator; the JS `split` semantics
(an empty string yields one empty group). -/
def splitCharsAux (sep : Char) : List Char → List (List Char)
  | [] => [[]]
  | c :: cs =>
    match splitCharsAux sep cs with
    | [] => [[]]
    | g :: gs => if c = sep then [] :: g :: gs else (c :: g) :: gs

/-- JS `s.split(sep)` for a one-character separator. -/
def jsSplit (s : String) (sep : Char) : List String :=
  (splitCharsAux sep s.data).map String.mk

/-- JS `s.trim()`: strip whitespace from both ends. -/
def jsTrim (s : String) : String :=
  String.mk (((s.data.dropWhile Char.isWhitespace).reverse.dropWhile
    Char.isWhitespace).reverse)

/-- The numeric value of a list of decimal digits. -/
def digitsToNat (ds : List Char) : Nat :=
  ds.foldl (fun n c => n * 10 + (c.toNat - 48)) 0

/-- JS `parseInt(s, 10)`: skip whitespace, optional sign, then leading
digits; `NaN` (modelled as `none`) when no digit is found. -/
def jsParseInt (s : String) : Option Int :=
  let t := (jsTrim s).data
  let signed : Int × List Char :=
    match t with
    | '-' :: rest => (-1, rest)
    | '+' :: rest => (1, rest)
    | _ => (1, t)
  let digits := signed.2.takeWhile Char.isDigit
  if digits.isEmpty then none
  else some (signed.1 * (digitsToNat digits : Int))

/-- Exact-key lookup in a JS-object association list (`obj[k]`). -/
def getField : List (String × String) → String → Option String
  | [], _ => none
  | (k', v) :: rest, k => if k' = k then some v else getField rest k

/-- JS-object property assignment `obj[k] = v`: overwrite in place or append. -/
def setField : List (String × String) → String → String → List (String × String)
  | [], k, v => [(k, v)]
  | (k', v') :: rest, k, v =>
    if k' = k then (k', v) :: rest else (k', v') :: setField rest k v

/-- JS `toLowerCase`, written as a structural map over the characters. -/
def jsToLower (s : String) : String :=
  String.mk (s.data.map Char.toLower)

/-- Source `getHeaderValue`: case-insensitive search for a header name,
returning the value of the first matching key, or `null`. -/
def getHeaderValue (headers : List (String × String)) (name : String) : Option String :=
  let lname := jsToLower name
  match headers.find? (fun h => jsToLower h.1 = lname) with
  | some h => some h.2
  | none => none

/-- The parsed content of a cache `.headers` JSON file: the `status` and
`received` members plus the stored response headers (lower-cased names). -/
structure StoredHeaders where
  status : Option Nat
  received : Option String
  fields : List (String × String)
deriving DecidableEq, Repr

/-- Refresh strategy value: the source compares it against the strings
force / never / once and otherwise tests `Number.isInteger`. -/
inductive Refresh
  | str (s : String)
  | int (n : Int)
deriving DecidableEq, Repr

/-- The string the source uses as ultimate fallback for the received date. -/
def epochString : String := "Jan 1, 1970, 00:00:00.000 GMT"

/-- Source: `new Date(headers.received || headers.date || epoch).getTime()`. -/
def receivedTime (pd : String → Option Int) (h : StoredHeaders) : Option Int :=
  match jsOrStr h.received (getField h.fields "date") with
  | some s => pd s
  | none => pd epochString

/-- The for-loop over `Cache-Control` tokens inside source `hasExpired`:
first `no-cache` or `max-age` directive decides; `none` when the loop falls
through without returning. -/
def ccTokenVerdict (received : Option Int) (now : Int) : List (List String) → Option Bool
  | [] => none
  | tok :: rest =>
    let param := jsTrim (tok.headD "")
    if param = "no-cache" then some true
    else if param = "max-age" then
      let maxAge := (tok[1]?).bind jsParseInt
      some (jsLt (jsAdd received (maxAge.map (· * 1000))) (some now))
    else ccTokenVerdict received now rest

/-- Source `hasExpired(headers, refresh)`, with the ambient launch time,
current time and date parser made explicit. -/
def hasExpired (pd : String → Option Int) (launchTime now : Int)
    (headers : Option StoredHeaders) (refresh : Refresh) : Bool :=
  match headers with
  | none => true
  | some h =>
    if refresh = .str "force" then true
    else if refresh = .str "never" then false
    else
      let received := receivedTime pd h
      if refresh = .str "once" then jsLt received (some launchTime)
      else
        match refresh with
        | .int n => jsLt (jsAdd received (some (n * 1000))) (some now)
        | .str _ =>
          match truthy? (getField h.fields "expires") with
          | some e => jsLt (pd e) (some now)
          | none =>
            match truthy? (getField h.fields "cache-control") with
            | some cc =>
              let tokens := (jsSplit cc ',').map (fun token => jsSplit token '=')
              (ccTokenVerdict received now tokens).getD true
            | none => true

/-- A network response as delivered by the underlying fetch primitive:
status, iterable headers (lower-cased names) and a body. -/
structure NetResp where
  status : Nat
  headers : List (String × String)
  body : String
deriving DecidableEq, Repr

/-- Body of a response served by the cache layer: `empty` models the `null`
body of a synthesized 304; `stream o` models `fs.createReadStream` over the
body file, where `o = none` means the file is missing and the stream errors
when read. -/
inductive RespBody
  | empty
  | stream (content : Option String)
deriving DecidableEq, Repr

/-- A response object handed back to the caller. -/
structure CachedResponse where
  status : Nat
  headers : List (String × String)
  body : RespBody
deriving DecidableEq, Repr

/-- On-disk state of one cache entry: the body file content and the
`.headers` file.  The outer option of `headers` is file existence, the inner
one is the JSON parse outcome (`none` = malformed). -/
structure Store where
  body : Option String
  headers : Option (Option StoredHeaders)
deriving DecidableEq, Repr

/-- Source `readHeadersFromCache`: a missing or malformed headers file is
swallowed and reported as absent. -/
def readHeadersFromCache (s : Store) : Option StoredHeaders :=
  s.headers.bind id

/-- Source `shouldReturn304(requestHeaders, responseHeaders)`. -/
def shouldReturn304 (pd : String → Option Int)
    (requestHeaders responseHeaders : List (String × String)) : Bool :=
  let requestEtags :=
    ((jsSplit ((getHeaderValue requestHeaders "If-None-Match").getD "") ',').map
      jsTrim).filter (fun v => v ≠ "")
  if requestEtags ≠ [] then
    let responseEtag := (getField responseHeaders "etag").getD ""
    requestEtags.any fun etag =>
      etag = responseEtag ∨ etag = "W/" ++ responseEtag ∨ "W/" ++ etag = responseEtag
  else
    match truthy? (getHeaderValue requestHeaders "If-Modified-Since") with
    | none => false
    | some requestKnownDate =>
      match pd requestKnownDate with
      | none => false
      | some known =>
        match getField responseHeaders "last-modified" with
        | none => false
        | some lm => jsGe (some known) (pd lm)

/-- Source: a request is cache-aware when the caller itself supplied a truthy
If-None-Match or If-Modified-Since header. -/
def isRequestCacheAware (reqHeaders : List (String × String)) : Bool :=
  truthyStr (getHeaderValue reqHeaders "If-None-Match") ||
    truthyStr (getHeaderValue reqHeaders "If-Modified-Since")

/-- The header names kept on a synthesized 304 response. -/
def headers304 : List String :=
  ["cache-control", "content-location", "date", "etag", "expires",
   "last-modified", "vary"]

/-- The value of the cache-status header added to responses served from the
cache. -/
def cacheHitValue : String := "fetch-filecache-for-crawling; hit"

/-- Source `readFromCache`: re-reads the headers file (throwing, hence
`none`, when missing or malformed), pulls out `status` and `received`,
synthesizes a 304 for matching cache-aware callers, and otherwise serves the
body stream with the cache-status header appended. -/
def readFromCache (pd : String → Option Int) (reqHeaders : List (String × String))
    (cacheAware : Bool) (s : Store) : Option CachedResponse :=
  match s.headers with
  | none => none
  | some none => none
  | some (some h) =>
    let status := match h.status with
      | some n => if n = 0 then 200 else n
      | none => 200
    if cacheAware && shouldReturn304 pd reqHeaders h.fields then
      some { status := 304,
             headers := h.fields.filter (fun kv => kv.1 ∈ headers304),
             body := .empty }
    else
      some { status := status,
             headers := setField h.fields "cache-status" cacheHitValue,
             body := .stream s.body }

/-- One iteration of the headers forEach in the non-304 save branch. -/
def storeRespHeader (fs : List (String × String)) (hv : String × String) :
    List (String × String) :=
  setField fs hv.1 hv.2

/-- The non-304 branch of source `saveToCacheIfNeeded`: stream the body to
the body file, then write a headers JSON holding the response status, the
wall-clock receive date and every response header. -/
def writeEntry (resp : NetResp) (nowStr : String) (_s : Store) : Store :=
  { body := some resp.body,
    headers := some (some
      { status := some resp.status,
        received := some nowStr,
        fields := resp.headers.foldl storeRespHeader [] }) }

/-- One iteration of the headers forEach in the 304 save branch: only the
expires / cache-control / date headers are copied into the stored record. -/
def copy304Header (p : StoredHeaders) (hv : String × String) : StoredHeaders :=
  if hv.1 = "expires" ∨ hv.1 = "cache-control" ∨ hv.1 = "date" then
    { p with fields := setField p.fields hv.1 hv.2 }
  else p

/-- The 304 branch of source `saveToCacheIfNeeded`: refresh `received` and
copy only the cache-relevant headers of the 304 response. -/
def update304Headers (prev : StoredHeaders) (respHeaders : List (String × String))
    (nowStr : String) : StoredHeaders :=
  respHeaders.foldl copy304Header { prev with received := some nowStr }

/-- Source `saveToCacheIfNeeded(response, prevHeaders)`: returns the updated
store and the `inCache` flag. -/
def saveToCacheIfNeeded (resp : NetResp) (prevHeaders : Option StoredHeaders)
    (nowStr : String) (s : Store) : Store × Bool :=
  if resp.status = 304 then
    match prevHeaders with
    | none => (s, false)
    | some prev =>
      ({ s with headers := some (some (update304Headers prev resp.headers nowStr)) },
       true)
  else
    (writeEntry resp nowStr s, true)

/-- A JS error value; only its `name` matters to the retry logic. -/
structure JsError where
  name : String
deriving DecidableEq, Repr

/-- Outcome of one invocation of the underlying fetch primitive. -/
inductive FetchResult
  | ok (r : NetResp)
  | err (e : JsError)
deriving DecidableEq, Repr

/-- Source `fetchWithRetry(url, options, remainingAttempts)`.  The network
is an oracle `net` indexed by attempt number; `rand` supplies the value of
`Math.floor(Math.random() * 8000)` before each retry.  Besides the final
outcome, the list of backoff delays actually slept is returned, so the
number of retries is `delays.length`. -/
def fetchWithRetry (net : Nat → FetchResult) (rand : Nat → Nat)
    (attempt remaining : Nat) : FetchResult × List Nat :=
  match net attempt with
  | .ok r => (.ok r, [])
  | .err e =>
    if e.name = "AbortError" then (.err e, [])
    else
      match remaining with
      | 0 => (.err e, [])
      | rem + 1 =>
        let rest := fetchWithRetry net rand (attempt + 1) rem
        (rest.1, (2000 + rand attempt) :: rest.2)

/-- Header injection at the top of source `conditionalFetch`: stored
validators are injected only when the caller is not itself cache-aware. -/
def injectValidators (cacheAware : Bool) (prev : Option StoredHeaders)
    (reqHeaders : List (String × String)) : List (String × String) :=
  let h1 :=
    match prev with
    | some p =>
      if truthyStr (getField p.fields "last-modified") && !cacheAware then
        setField reqHeaders "If-Modified-Since" ((getField p.fields "last-modified").getD "")
      else reqHeaders
    | none => reqHeaders
  match prev with
  | some p =>
    if truthyStr (getField p.fields "etag") && !cacheAware then
      setField h1 "If-None-Match" ((getField p.fields "etag").getD "")
    else h1
  | none => h1

/-- What the orchestrator hands back to the caller. -/
inductive Served
  | fromCache (r : Option CachedResponse)
  | passthrough (r : NetResp)
  | failed (e : JsError)
deriving DecidableEq, Repr

/-- Source `conditionalFetch(prevHeaders)`: inject validators, fetch with
retry, persist if needed, then serve from the cache (or pass a 304 through
when nothing is cached). -/
def conditionalFetch (pd : String → Option Int) (net : Nat → FetchResult)
    (rand : Nat → Nat) (reqHeaders0 : List (String × String))
    (prev : Option StoredHeaders) (nowStr : String) (s : Store) : Served × Store :=
  let aware := isRequestCacheAware reqHeaders0
  let reqHeaders := injectValidators aware prev reqHeaders0
  match (fetchWithRetry net rand 0 3).1 with
  | .err e => (.failed e, s)
  | .ok resp =>
    let saved := saveToCacheIfNeeded resp prev nowStr s
    if saved.2 then (.fromCache (readFromCache pd reqHeaders aware saved.1), saved.1)
    else (.passthrough resp, saved.1)

/-- Decision taken by the orchestrator once it owns the pending fetch:
revalidate over the network, or serve the cached entry. -/
inductive FetchPath
  | network
  | serve (r : Option CachedResponse)
deriving DecidableEq, Repr

/-- The owner branch of the source orchestrator: read the stored metadata,
and serve from the cache exactly when `hasExpired` says the entry is still
valid. -/
def ownerPath (pd : String → Option Int) (launchTime now : Int)
    (reqHeaders : List (String × String)) (refresh : Refresh) (s : Store) : FetchPath :=
  let headers := readHeadersFromCache s
  if hasExpired pd launchTime now headers refresh then .network
  else .serve (readFromCache pd reqHeaders (isRequestCacheAware reqHeaders) s)

/-- One call's reset handling: clear the folder only when requested and not
already cleared this process lifetime (`cacheFolderReset`). -/
def resetStep (resetSet : List String) (call : Bool × String) : List String × Bool :=
  if call.1 && !(resetSet.contains call.2) then (call.2 :: resetSet, true)
  else (resetSet, false)

/-- Run a sequence of calls through the reset guard, collecting for each
call whether it actually cleared its folder. -/
def runResets : List String → List (Bool × String) → List String × List Bool
  | s, [] => (s, [])
  | s, c :: cs =>
    let step1 := resetStep s c
    let rest := runResets step1.1 cs
    (rest.1, step1.2 :: rest.2)

/-!
Single-flight coordinator (source orchestrator tail).  Each caller for one
URL is a thread executing the orchestrator; the steps below sit at the await
boundaries of the source that matter for coordination:

* `arrive`: the synchronous block `isFetchPending()` / `addPendingFetch()` —
  a caller either blocks on the existing pending promise or atomically
  registers itself as the owner;
* `net`: the owner's `readHeadersFromCache` / `hasExpired` decision and, when
  expired, the network fetch plus `saveToCacheIfNeeded`;
* `resolve`: the owner builds its own response via `readFromCache`, then
  `resolvePendingFetch()` wakes the waiters and removes the handle;
* `wake`: a waiter resumes after the pending promise resolved and re-reads
  the cache via `readFromCache`.
-/

/-- Phase of one caller inside the orchestrator. -/
inductive TPhase
  | start
  | waiting
  | flight
  | fetched
  | done (r : Option CachedResponse)
deriving DecidableEq, Repr

/-- Process-wide state: the pendingFetches entry for the URL, the on-disk
entry, the number of network calls issued so far, and every caller. -/
structure SysState where
  pending : Bool
  store : Store
  netCalls : Nat
  threads : List TPhase
deriving DecidableEq, Repr

/-- Scheduler events; the index selects the caller. -/
inductive Event
  | arrive (i : Nat)
  | net (i : Nat)
  | resolve (i : Nat)
  | wake (i : Nat)
deriving DecidableEq, Repr

/-- Ambient parameters of a run: date parser, clock values, refresh mode,
the response the network would give, and the receive date written to disk. -/
structure SysParams where
  pd : String → Option Int
  launchTime : Int
  now : Int
  refresh : Refresh
  netResp : NetResp
  nowStr : String

/-- One scheduler step; `none` when the event is not enabled. -/
def step (P : SysParams) (s : SysState) : Event → Option SysState
  | .arrive i =>
    match s.threads[i]? with
    | some .start =>
      if s.pending then some { s with threads := s.threads.set i .waiting }
      else some { s with pending := true, threads := s.threads.set i .flight }
    | _ => none
  | .net i =>
    match s.threads[i]? with
    | some .flight =>
      if hasExpired P.pd P.launchTime P.now (readHeadersFromCache s.store) P.refresh then
        some { s with netCalls := s.netCalls + 1,
                      store := writeEntry P.netResp P.nowStr s.store,
                      threads := s.threads.set i .fetched }
      else some { s with threads := s.threads.set i .fetched }
    | _ => none
  | .resolve i =>
    match s.threads[i]? with
    | some .fetched =>
      let r := readFromCache P.pd [] false s.store
      some { s with pending := false, threads := s.threads.set i (.done r) }
    | _ => none
  | .wake i =>
    match s.threads[i]? with
    | some .waiting =>
      if s.pending then none
      else
        let r := readFromCache P.pd [] false s.store
        some { s with threads := s.threads.set i (.done r) }
    | _ => none

/-- Run a whole event list. -/
def run (P : SysParams) : SysState → List Event → Option SysState
  | s, [] => some s
  | s, e :: es =>
    match step P s e with
    | some s' => run P s' es
    | none => none

/-- K callers about to fetch the same URL that has no prior cache entry. -/
def initState (K : Nat) : SysState :=
  { pending := false,
    store := { body := none, headers := none },
    netCalls := 0,
    threads := List.replicate K .start }

/-- An event list free of arrivals. -/
def noArrive (es : List Event) : Bool :=
  es.all fun e => match e with | .arrive _ => false | _ => true

/-- The calls are simultaneous: every caller arrives before the first
caller's operation completes (no arrival after a resolve). -/
def simultaneous : List Event → Bool
  | [] => true
  | .resolve _ :: es => noArrive es
  | _ :: es => simultaneous es

/-- Does this state say every caller finished? -/
def allDone (s : SysState) : Bool :=
  s.threads.all fun t => match t with | .done _ => true | _ => false

/-- The empty on-disk entry. -/
def emptyStore : Store := { body := none, headers := none }

/-- The on-disk entry after the single network fetch persisted its result. -/
def postStore (P : SysParams) : Store := writeEntry P.netResp P.nowStr emptyStore

/-- The response every caller is served once the entry is persisted. -/
def doneResp (P : SysParams) : Option CachedResponse :=
  readFromCache P.pd [] false (postStore P)

/-- Status of a response served by the orchestrator, when one was served. -/
def servedStatus : Served → Option Nat
  | .fromCache (some r) => some r.status
  | .fromCache none => none
  | .passthrough r => some r.status
  | .failed _ => none

/-- Status of the response of a serve decision. -/
def serveStatus : FetchPath → Option Nat
  | .serve (some r) => some r.status
  | _ => none

/-- Body of the response of a serve decision. -/
def serveBody : FetchPath → Option RespBody
  | .serve (some r) => some r.body
  | _ => none

/-- Header names of the response of a serve decision. -/
def serveHeaderNames : FetchPath → List String
  | .serve (some r) => r.headers.map Prod.fst
  | _ => []

/-- Invariant before any caller arrived. -/
def InvA (K : Nat) (s : SysState) : Prop :=
  s.pending = false ∧ s.netCalls = 0 ∧ s.store = emptyStore ∧
  s.threads.length = K ∧ ∀ (j : Nat) (t : TPhase), s.threads[j]? = some t → t = .start

/-- Invariant while the owner is before its network call. -/
def InvB (K : Nat) (s : SysState) : Prop :=
  s.pending = true ∧ s.netCalls = 0 ∧ s.store = emptyStore ∧
  s.threads.length = K ∧
  ∃ i, s.threads[i]? = some .flight ∧
    ∀ (j : Nat) (t : TPhase), j ≠ i → s.threads[j]? = some t → t = .start ∨ t = .waiting

/-- Invariant after the network call persisted, before the owner resolved. -/
def InvC (P : SysParams) (K : Nat) (s : SysState) : Prop :=
  s.pending = true ∧ s.netCalls = 1 ∧ s.store = postStore P ∧
  s.threads.length = K ∧
  ∃ i, s.threads[i]? = some .fetched ∧
    ∀ (j : Nat) (t : TPhase), j ≠ i → s.threads[j]? = some t → t = .start ∨ t = .waiting

/-- Invariant after the owner resolved the pending fetch. -/
def InvD (P : SysParams) (K : Nat) (s : SysState) : Prop :=
  s.pending = false ∧ s.netCalls = 1 ∧ s.store = postStore P ∧
  s.threads.length = K ∧
  ∀ (j : Nat) (t : TPhase), s.threads[j]? = some t →
    t = .start ∨ t = .waiting ∨ t = .done (doneResp P)

/-! Association-list lemmas. -/

theorem getField_setField_self (fs : List (String × String)) (k v : String) :
    getField (setField fs k v) k = some v := by
  induction fs with
  | nil => simp [setField, getField]
  | cons hd tl ih =>
    obtain ⟨k', v'⟩ := hd
    by_cases h : k' = k
    · simp [setField, getField, h]
    · simp [setField, getField, h, ih]

theorem getField_setField_ne (fs : List (String × String)) (k' k v : String)
    (h : k' ≠ k) : getField (setField fs k' v) k = getField fs k := by
  induction fs with
  | nil => simp [setField, getField, h]
  | cons hd tl ih =>
    obtain ⟨k₀, v₀⟩ := hd
    by_cases h₀ : k₀ = k'
    · subst h₀
      simp [setField, getField, h]
    · simp only [setField, if_neg h₀]
      by_cases h₁ : k₀ = k
      · simp [getField, h₁]
      · simp [getField, h₁, ih]

theorem getField_eq_none_iff (fs : List (String × String)) (k : String) :
    getField fs k = none ↔ k ∉ fs.map Prod.fst := by
  induction fs with
  | nil => simp [getField]
  | cons hd tl ih =>
    obtain ⟨k₀, v₀⟩ := hd
    by_cases h : k₀ = k
    · simp [getField, h]
    · simp [getField, h, ih, Ne.symm h]

theorem setField_of_not_mem (fs : List (String × String)) (k v : String)
    (h : k ∉ fs.map Prod.fst) : setField fs k v = fs ++ [(k, v)] := by
  induction fs with
  | nil => simp [setField]
  | cons hd tl ih =>
    obtain ⟨k₀, v₀⟩ := hd
    simp only [List.map_cons, List.mem_cons, not_or] at h
    simp [setField, Ne.symm h.1, ih h.2]

theorem getField_append (fs₁ fs₂ : List (String × String)) (k : String)
    (h : getField fs₁ k = none) :
    getField (fs₁ ++ fs₂) k = getField fs₂ k := by
  induction fs₁ with
  | nil => simp
  | cons hd tl ih =>
    obtain ⟨k₀, v₀⟩ := hd
    by_cases h₀ : k₀ = k
    · simp [getField, h₀] at h
    · simp only [getField, if_neg h₀] at h ⊢
      exact ih h

theorem foldl_storeRespHeader_eq_append (hs : List (String × String)) :
    ∀ acc : List (String × String),
      (hs.map Prod.fst).Nodup → (∀ k ∈ hs.map Prod.fst, getField acc k = none) →
      hs.foldl storeRespHeader acc = acc ++ hs := by
  induction hs with
  | nil => intro acc _ _; simp
  | cons hd tl ih =>
    intro acc hnd hdisj
    obtain ⟨k, v⟩ := hd
    simp only [List.map_cons, List.nodup_cons] at hnd
    have hacc : getField acc k = none := hdisj k (by simp)
    have hset : setField acc k v = acc ++ [(k, v)] :=
      setField_of_not_mem acc k v ((getField_eq_none_iff acc k).mp hacc)
    simp only [List.foldl_cons, storeRespHeader, hset]
    rw [ih (acc ++ [(k, v)]) hnd.2]
    · simp
    · intro k' hk'
      have hk'acc : getField acc k' = none := hdisj k' (by simp [hk'])
      rw [getField_append _ _ _ hk'acc]
      have : k ≠ k' := fun he => hnd.1 (he ▸ hk')
      simp [getField, this]

/-! Claim theorems. -/

/-- C1: for every metadata value and every pair of times, `hasExpired`
returns true on absent metadata under every refresh mode, true under force,
false under never, compares the received time against the process start
time under once, and against now plus N seconds under an integer refresh,
with these clauses taking precedence in this order (each equation below
holds for every stored metadata value, so earlier clauses cannot be
overridden by later ones). -/
theorem hasExpired_refresh_modes (pd : String → Option Int) (launchTime now : Int)
    (h : StoredHeaders) (refresh : Refresh) (r n : Int)
    (hr : receivedTime pd h = some r) :
    hasExpired pd launchTime now none refresh = true ∧
    hasExpired pd launchTime now (some h) (.str "force") = true ∧
    hasExpired pd launchTime now (some h) (.str "never") = false ∧
    hasExpired pd launchTime now (some h) (.str "once") = decide (r < launchTime) ∧
    hasExpired pd launchTime now (some h) (.int n) = decide (r + n * 1000 < now) := by
  refine ⟨rfl, by simp [hasExpired], by simp [hasExpired], ?_, ?_⟩
  · simp [hasExpired, hr, jsLt]
  · simp [hasExpired, hr, jsAdd, jsLt]

/-- Witness for C1 at a concrete metadata value and concrete times. -/
theorem hasExpired_refresh_modes_witness :
    hasExpired (fun _ => some 5) 10 100 none (.str "default") = true ∧
    hasExpired (fun _ => some 5) 10 100 (some ⟨some 200, some "x", []⟩) (.str "force") = true ∧
    hasExpired (fun _ => some 5) 10 100 (some ⟨some 200, some "x", []⟩) (.str "never") = false ∧
    hasExpired (fun _ => some 5) 10 100 (some ⟨some 200, some "x", []⟩) (.str "once") =
      decide ((5 : Int) < 10) ∧
    hasExpired (fun _ => some 5) 10 100 (some ⟨some 200, some "x", []⟩) (.int 2) =
      decide ((5 : Int) + 2 * 1000 < 100) :=
  hasExpired_refresh_modes (fun _ => some 5) 10 100 ⟨some 200, some "x", []⟩
    (.str "default") 5 2 (by decide)

/-- In default mode the HTTP rules of `hasExpired` apply. -/
theorem hasExpired_default_eq (pd : String → Option Int) (launchTime now : Int)
    (h : StoredHeaders) :
    hasExpired pd launchTime now (some h) (.str "default") =
      match truthy? (getField h.fields "expires") with
      | some e => jsLt (pd e) (some now)
      | none =>
        match truthy? (getField h.fields "cache-control") with
        | some cc =>
          (ccTokenVerdict (receivedTime pd h) now
            ((jsSplit cc ',').map (fun token => jsSplit token '='))).getD true
        | none => true := by
  simp [hasExpired]

/-- C2 counterexample: metadata whose Expires header does not parse (the
date parser yields NaN) is reported as still valid, not expired, under the
default refresh mode — the claimed default-to-expired on unparseable
headers does not hold. -/
theorem hasExpired_unparseable_expires_counterexample :
    hasExpired (fun _ => none) 0 100
      (some ⟨some 200, none, [("expires", "garbage")]⟩) (.str "default") = false := by
  decide

/-- C2 amended: under the default refresh mode, a present (non-empty)
Expires header always decides: expired iff it parses to a time before now,
and not expired when it is unparseable.  Only otherwise is Cache-Control
consulted, scanning directives left to right; the first no-cache or max-age
directive decides: no-cache means expired, max-age with a parseable value S
means expired iff receivedAt plus S seconds is before now, and max-age with
an unparseable value means not expired.  When no directive decides, or no
Cache-Control header is present, the entry counts as expired. -/
theorem hasExpired_default_mode_spec (pd : String → Option Int)
    (launchTime now : Int) (h : StoredHeaders) (r t S : Int) (e cc v : String)
    (tok : List String) (toks : List (List String))
    (hr : receivedTime pd h = some r) :
    (truthy? (getField h.fields "expires") = some e → pd e = none →
      hasExpired pd launchTime now (some h) (.str "default") = false) ∧
    (truthy? (getField h.fields "expires") = some e → pd e = some t →
      hasExpired pd launchTime now (some h) (.str "default") = decide (t < now)) ∧
    (truthy? (getField h.fields "expires") = none →
      truthy? (getField h.fields "cache-control") = none →
      hasExpired pd launchTime now (some h) (.str "default") = true) ∧
    (truthy? (getField h.fields "expires") = none →
      truthy? (getField h.fields "cache-control") = some cc →
      hasExpired pd launchTime now (some h) (.str "default") =
        (ccTokenVerdict (some r) now
          ((jsSplit cc ',').map (fun token => jsSplit token '='))).getD true) ∧
    (jsTrim (tok.headD "") = "no-cache" →
      ccTokenVerdict (some r) now (tok :: toks) = some true) ∧
    (jsTrim (tok.headD "") = "max-age" → tok[1]? = some v → jsParseInt v = some S →
      ccTokenVerdict (some r) now (tok :: toks) =
        some (decide (r + S * 1000 < now))) ∧
    (jsTrim (tok.headD "") = "max-age" → tok[1]? = some v → jsParseInt v = none →
      ccTokenVerdict (some r) now (tok :: toks) = some false) ∧
    (jsTrim (tok.headD "") ≠ "no-cache" → jsTrim (tok.headD "") ≠ "max-age" →
      ccTokenVerdict (some r) now (tok :: toks) = ccTokenVerdict (some r) now toks) ∧
    ccTokenVerdict (some r) now ([] : List (List String)) = none := by
  refine ⟨?_, ?_, ?_, ?_, ?_, ?_, ?_, ?_, rfl⟩
  · intro hexp hpd
    rw [hasExpired_default_eq, hexp]
    simp [hpd, jsLt]
  · intro hexp hpd
    rw [hasExpired_default_eq, hexp]
    simp [hpd, jsLt]
  · intro hexp hcc
    rw [hasExpired_default_eq, hexp, hcc]
  · intro hexp hcc
    rw [hasExpired_default_eq, hexp, hcc, hr]
  · intro hp
    simp only [ccTokenVerdict]
    rw [hp]
    simp
  · intro hp hv hS
    simp only [ccTokenVerdict]
    rw [hp]
    simp [hv, hS, jsAdd, jsLt]
  · intro hp hv hS
    simp only [ccTokenVerdict]
    rw [hp]
    simp [hv, hS, jsAdd, jsLt]
  · intro hp1 hp2
    simp only [ccTokenVerdict]
    rw [if_neg hp1, if_neg hp2]

/-- Witness for C2's amended statement at concrete metadata carrying a
max-age directive. -/
theorem hasExpired_default_mode_spec_witness :
    (truthy? (getField [("cache-control", "max-age=5")] "expires") = some "e" →
      (fun _ : String => some (0 : Int)) "e" = none →
      hasExpired (fun _ => some 0) 0 10000
        (some ⟨some 200, some "rd", [("cache-control", "max-age=5")]⟩)
        (.str "default") = false) ∧
    (truthy? (getField [("cache-control", "max-age=5")] "expires") = some "e" →
      (fun _ : String => some (0 : Int)) "e" = some 7 →
      hasExpired (fun _ => some 0) 0 10000
        (some ⟨some 200, some "rd", [("cache-control", "max-age=5")]⟩)
        (.str "default") = decide ((7 : Int) < 10000)) ∧
    (truthy? (getField [("cache-control", "max-age=5")] "expires") = none →
      truthy? (getField [("cache-control", "max-age=5")] "cache-control") = none →
      hasExpired (fun _ => some 0) 0 10000
        (some ⟨some 200, some "rd", [("cache-control", "max-age=5")]⟩)
        (.str "default") = true) ∧
    (truthy? (getField [("cache-control", "max-age=5")] "expires") = none →
      truthy? (getField [("cache-control", "max-age=5")] "cache-control") =
        some "max-age=5" →
      hasExpired (fun _ => some 0) 0 10000
        (some ⟨some 200, some "rd", [("cache-control", "max-age=5")]⟩)
        (.str "default") =
        (ccTokenVerdict (some 0) 10000
          ((jsSplit "max-age=5" ',').map (fun token => jsSplit token '='))).getD true) ∧
    (jsTrim (["max-age", "5"].headD "") = "no-cache" →
      ccTokenVerdict (some 0) 10000 (["max-age", "5"] :: []) = some true) ∧
    (jsTrim (["max-age", "5"].headD "") = "max-age" → ["max-age", "5"][1]? = some "5" →
      jsParseInt "5" = some 5 →
      ccTokenVerdict (some 0) 10000 (["max-age", "5"] :: []) =
        some (decide ((0 : Int) + 5 * 1000 < 10000))) ∧
    (jsTrim (["max-age", "5"].headD "") = "max-age" → ["max-age", "5"][1]? = some "5" →
      jsParseInt "5" = none →
      ccTokenVerdict (some 0) 10000 (["max-age", "5"] :: []) = some false) ∧
    (jsTrim (["max-age", "5"].headD "") ≠ "no-cache" →
      jsTrim (["max-age", "5"].headD "") ≠ "max-age" →
      ccTokenVerdict (some 0) 10000 (["max-age", "5"] :: []) =
        ccTokenVerdict (some 0) 10000 []) ∧
    ccTokenVerdict (some 0) 10000 ([] : List (List String)) = none :=
  hasExpired_default_mode_spec (fun _ => some 0) 0 10000
    ⟨some 200, some "rd", [("cache-control", "max-age=5")]⟩ 0 7 5 "e" "max-age=5" "5"
    ["max-age", "5"] [] (by decide)

/-- Unfolding step of `fetchWithRetry` on a successful attempt. -/
theorem fetchWithRetry_ok (net : Nat → FetchResult) (rand : Nat → Nat)
    (attempt rem : Nat) (r : NetResp) (h : net attempt = .ok r) :
    fetchWithRetry net rand attempt rem = (.ok r, []) := by
  cases rem <;> simp [fetchWithRetry, h]

/-- Unfolding step of `fetchWithRetry` on an abort failure. -/
theorem fetchWithRetry_abort (net : Nat → FetchResult) (rand : Nat → Nat)
    (attempt rem : Nat) (e : JsError) (h : net attempt = .err e)
    (hn : e.name = "AbortError") :
    fetchWithRetry net rand attempt rem = (.err e, []) := by
  cases rem <;> simp [fetchWithRetry, h, hn]

/-- Unfolding step of `fetchWithRetry` on a retryable failure. -/
theorem fetchWithRetry_err (net : Nat → FetchResult) (rand : Nat → Nat)
    (attempt rem : Nat) (e : JsError) (h : net attempt = .err e)
    (hn : e.name ≠ "AbortError") :
    fetchWithRetry net rand attempt (rem + 1) =
      ((fetchWithRetry net rand (attempt + 1) rem).1,
        (2000 + rand attempt) :: (fetchWithRetry net rand (attempt + 1) rem).2) := by
  rw [fetchWithRetry.eq_def, h]
  simp only [if_neg hn]

/-- Unfolding step of `fetchWithRetry` when the budget is exhausted. -/
theorem fetchWithRetry_exhausted (net : Nat → FetchResult) (rand : Nat → Nat)
    (attempt : Nat) (e : JsError) (h : net attempt = .err e) :
    fetchWithRetry net rand attempt 0 = (.err e, []) := by
  by_cases hn : e.name = "AbortError" <;> simp [fetchWithRetry, h, hn]

/-- The number of retries never exceeds the remaining-attempts budget. -/
theorem fetchWithRetry_delays_length (net : Nat → FetchResult) (rand : Nat → Nat) :
    ∀ rem attempt, ((fetchWithRetry net rand attempt rem).2).length ≤ rem := by
  intro rem
  induction rem with
  | zero =>
    intro attempt
    cases hnet : net attempt with
    | ok r => simp [fetchWithRetry_ok net rand attempt 0 r hnet]
    | err e => simp [fetchWithRetry_exhausted net rand attempt e hnet]
  | succ rem ih =>
    intro attempt
    cases hnet : net attempt with
    | ok r => simp [fetchWithRetry_ok net rand attempt (rem + 1) r hnet]
    | err e =>
      by_cases he : e.name = "AbortError"
      · simp [fetchWithRetry_abort net rand attempt (rem + 1) e hnet he]
      · rw [fetchWithRetry_err net rand attempt rem e hnet he]
        simpa using ih (attempt + 1)

/-- Every backoff delay lies in the 2 to 10 second band. -/
theorem fetchWithRetry_delays_bound (net : Nat → FetchResult) (rand : Nat → Nat)
    (hrand : ∀ k, rand k < 8000) :
    ∀ rem attempt d, d ∈ (fetchWithRetry net rand attempt rem).2 →
      2000 ≤ d ∧ d < 10000 := by
  intro rem
  induction rem with
  | zero =>
    intro attempt d hd
    cases hnet : net attempt with
    | ok r => simp [fetchWithRetry_ok net rand attempt 0 r hnet] at hd
    | err e => simp [fetchWithRetry_exhausted net rand attempt e hnet] at hd
  | succ rem ih =>
    intro attempt d hd
    cases hnet : net attempt with
    | ok r => simp [fetchWithRetry_ok net rand attempt (rem + 1) r hnet] at hd
    | err e =>
      by_cases he : e.name = "AbortError"
      · simp [fetchWithRetry_abort net rand attempt (rem + 1) e hnet he] at hd
      · rw [fetchWithRetry_err net rand attempt rem e hnet he] at hd
        simp only [List.mem_cons] at hd
        rcases hd with rfl | hd
        · have := hrand attempt
          omega
        · exact ih (attempt + 1) d hd

/-- C4: one initial attempt plus at most 3 retries, with each randomized
backoff delay roughly between 2 and 10 seconds; three non-abort failures
followed by a success yield the successful response, and four failures
propagate the last failure. -/
theorem fetchWithRetry_spec (net : Nat → FetchResult) (rand : Nat → Nat)
    (r : NetResp) (e3 : JsError) (hrand : ∀ k, rand k < 8000) :
    ((fetchWithRetry net rand 0 3).2).length ≤ 3 ∧
    (∀ d ∈ (fetchWithRetry net rand 0 3).2, 2000 ≤ d ∧ d < 10000) ∧
    ((∀ k, k < 3 → ∃ ek : JsError, net k = .err ek ∧ ek.name ≠ "AbortError") →
      net 3 = .ok r → (fetchWithRetry net rand 0 3).1 = .ok r) ∧
    ((∀ k, k < 3 → ∃ ek : JsError, net k = .err ek ∧ ek.name ≠ "AbortError") →
      net 3 = .err e3 → (fetchWithRetry net rand 0 3).1 = .err e3) := by
  refine ⟨fetchWithRetry_delays_length net rand 3 0,
    fun d hd => fetchWithRetry_delays_bound net rand hrand 3 0 d hd, ?_, ?_⟩
  · intro hfail hok
    obtain ⟨e0, h0, h0n⟩ := hfail 0 (by omega)
    obtain ⟨e1, h1, h1n⟩ := hfail 1 (by omega)
    obtain ⟨e2, h2, h2n⟩ := hfail 2 (by omega)
    rw [show (3 : Nat) = 2 + 1 from rfl, fetchWithRetry_err net rand 0 2 e0 h0 h0n]
    rw [show (2 : Nat) = 1 + 1 from rfl, fetchWithRetry_err net rand 1 1 e1 h1 h1n]
    rw [show (1 : Nat) = 0 + 1 from rfl, fetchWithRetry_err net rand 2 0 e2 h2 h2n]
    rw [fetchWithRetry_ok net rand 3 0 r hok]
  · intro hfail herr
    obtain ⟨e0, h0, h0n⟩ := hfail 0 (by omega)
    obtain ⟨e1, h1, h1n⟩ := hfail 1 (by omega)
    obtain ⟨e2, h2, h2n⟩ := hfail 2 (by omega)
    rw [show (3 : Nat) = 2 + 1 from rfl, fetchWithRetry_err net rand 0 2 e0 h0 h0n]
    rw [show (2 : Nat) = 1 + 1 from rfl, fetchWithRetry_err net rand 1 1 e1 h1 h1n]
    rw [show (1 : Nat) = 0 + 1 from rfl, fetchWithRetry_err net rand 2 0 e2 h2 h2n]
    rw [fetchWithRetry_exhausted net rand 3 e3 herr]

/-- Witness for C4: three network failures, then success on the 4th try. -/
theorem fetchWithRetry_spec_witness :
    ((fetchWithRetry (fun k => if k < 3 then .err ⟨"TypeError"⟩ else .ok ⟨200, [], "ok"⟩)
        (fun _ => 0) 0 3).2).length ≤ 3 ∧
    (∀ d ∈ (fetchWithRetry (fun k => if k < 3 then .err ⟨"TypeError"⟩ else .ok ⟨200, [], "ok"⟩)
        (fun _ => 0) 0 3).2, 2000 ≤ d ∧ d < 10000) ∧
    ((∀ k, k < 3 → ∃ ek : JsError,
        (fun k => if k < 3 then FetchResult.err ⟨"TypeError"⟩ else .ok ⟨200, [], "ok"⟩) k =
          .err ek ∧ ek.name ≠ "AbortError") →
      (fun k => if k < 3 then FetchResult.err ⟨"TypeError"⟩ else .ok ⟨200, [], "ok"⟩) 3 =
        .ok ⟨200, [], "ok"⟩ →
      (fetchWithRetry (fun k => if k < 3 then .err ⟨"TypeError"⟩ else .ok ⟨200, [], "ok"⟩)
        (fun _ => 0) 0 3).1 = .ok ⟨200, [], "ok"⟩) ∧
    ((∀ k, k < 3 → ∃ ek : JsError,
        (fun k => if k < 3 then FetchResult.err ⟨"TypeError"⟩ else .ok ⟨200, [], "ok"⟩) k =
          .err ek ∧ ek.name ≠ "AbortError") →
      (fun k => if k < 3 then FetchResult.err ⟨"TypeError"⟩ else .ok ⟨200, [], "ok"⟩) 3 =
        .err ⟨"TypeError"⟩ →
      (fetchWithRetry (fun k => if k < 3 then .err ⟨"TypeError"⟩ else .ok ⟨200, [], "ok"⟩)
        (fun _ => 0) 0 3).1 = .err ⟨"TypeError"⟩) :=
  fetchWithRetry_spec (fun k => if k < 3 then .err ⟨"TypeError"⟩ else .ok ⟨200, [], "ok"⟩)
    (fun _ => 0) ⟨200, [], "ok"⟩ ⟨"TypeError"⟩ (fun _ => by norm_num)

/-- The reset set only grows. -/
theorem mem_runResets_fst (F : String) :
    ∀ (cs : List (Bool × String)) (s : List String),
      F ∈ s → F ∈ (runResets s cs).1 := by
  intro cs
  induction cs with
  | nil => intro s hs; simpa [runResets] using hs
  | cons c cs ih =>
    intro s hs
    simp only [runResets]
    apply ih
    unfold resetStep
    split
    · exact List.mem_cons_of_mem _ hs
    · exact hs

/-- A folder enters the reset set only through a requested reset on it. -/
theorem not_mem_runResets_fst (F : String) :
    ∀ (cs : List (Bool × String)) (s : List String),
      F ∉ s → (true, F) ∉ cs → F ∉ (runResets s cs).1 := by
  intro cs
  induction cs with
  | nil => intro s hs _; simpa [runResets] using hs
  | cons c cs ih =>
    intro s hs hcs
    simp only [List.mem_cons, not_or] at hcs
    simp only [runResets]
    apply ih _ _ hcs.2
    obtain ⟨b, f⟩ := c
    simp only [resetStep]
    split
    · next hcond =>
      simp only [Bool.and_eq_true] at hcond
      intro hmem
      rcases List.mem_cons.mp hmem with heq | hmem'
      · apply hcs.1
        have hb : b = true := hcond.1
        have hf : F = f := heq
        rw [hb, hf]
      · exact hs hmem'
    · exact hs

/-- A requested reset on a folder puts it into the reset set. -/
theorem mem_runResets_of_call (F : String) :
    ∀ (cs : List (Bool × String)) (s : List String),
      (true, F) ∈ cs → F ∈ (runResets s cs).1 := by
  intro cs
  induction cs with
  | nil => intro s hs; simp at hs
  | cons c cs ih =>
    intro s hc
    rcases List.mem_cons.mp hc with heq | hmem
    · subst heq
      simp only [runResets]
      apply mem_runResets_fst
      by_cases hin : F ∈ s
      · simp [resetStep, hin]
      · simp [resetStep, hin]
    · simp only [runResets]
      exact ih _ hmem

/-- The flag recorded for the call at position `cs₁.length`. -/
theorem runResets_flag_at (c : Bool × String) (cs₂ : List (Bool × String)) :
    ∀ (cs₁ : List (Bool × String)) (s : List String),
      ((runResets s (cs₁ ++ c :: cs₂)).2)[cs₁.length]? =
        some (resetStep (runResets s cs₁).1 c).2 := by
  intro cs₁
  induction cs₁ with
  | nil => intro s; simp [runResets]
  | cons c₀ cs₁ ih =>
    intro s
    simp only [List.cons_append, runResets, List.length_cons, List.getElem?_cons_succ]
    exact ih _

/-- C7: within one process, the folder-clearing reset runs at most once per
folder.  The call at position `cs₁.length` requests a reset of folder `F`:
it actually clears the folder exactly when no earlier call already did (and
the folder was not already marked), and a cleared folder is recorded in the
process-wide reset set. -/
theorem reset_once_spec (s₀ : List String) (F : String)
    (cs₁ cs₂ : List (Bool × String)) :
    (F ∉ s₀ → (true, F) ∉ cs₁ →
      ((runResets s₀ (cs₁ ++ (true, F) :: cs₂)).2)[cs₁.length]? = some true) ∧
    ((true, F) ∈ cs₁ →
      ((runResets s₀ (cs₁ ++ (true, F) :: cs₂)).2)[cs₁.length]? = some false) ∧
    (F ∈ s₀ →
      ((runResets s₀ (cs₁ ++ (true, F) :: cs₂)).2)[cs₁.length]? = some false) ∧
    ((true, F) ∈ cs₁ ++ (true, F) :: cs₂ →
      F ∈ (runResets s₀ (cs₁ ++ (true, F) :: cs₂)).1) := by
  refine ⟨?_, ?_, ?_, fun hc => mem_runResets_of_call F _ s₀ hc⟩
  · intro hs hcs
    rw [runResets_flag_at]
    have hnotin : F ∉ (runResets s₀ cs₁).1 := not_mem_runResets_fst F cs₁ s₀ hs hcs
    simp [resetStep, hnotin]
  · intro hcs
    rw [runResets_flag_at]
    have hin : F ∈ (runResets s₀ cs₁).1 := mem_runResets_of_call F cs₁ s₀ hcs
    simp [resetStep, hin]
  · intro hs
    rw [runResets_flag_at]
    have hin : F ∈ (runResets s₀ cs₁).1 := mem_runResets_fst F cs₁ s₀ hs
    simp [resetStep, hin]

/-- Witness for C7: the second reset request on the same folder clears
nothing. -/
theorem reset_once_spec_witness :
    ((".cache" ∉ ([] : List String) →
      (true, ".cache") ∉ [((false : Bool), ".cache"), (true, "other")] →
      ((runResets [] ([((false : Bool), ".cache"), (true, "other")] ++
        (true, ".cache") :: [(true, ".cache")])).2)[
          ([((false : Bool), ".cache"), (true, "other")].length)]? = some true) ∧
    ((true, ".cache") ∈ [((false : Bool), ".cache"), (true, "other")] →
      ((runResets [] ([((false : Bool), ".cache"), (true, "other")] ++
        (true, ".cache") :: [(true, ".cache")])).2)[
          ([((false : Bool), ".cache"), (true, "other")].length)]? = some false) ∧
    (".cache" ∈ ([] : List String) →
      ((runResets [] ([((false : Bool), ".cache"), (true, "other")] ++
        (true, ".cache") :: [(true, ".cache")])).2)[
          ([((false : Bool), ".cache"), (true, "other")].length)]? = some false) ∧
    ((true, ".cache") ∈ [((false : Bool), ".cache"), (true, "other")] ++
        (true, ".cache") :: [(true, ".cache")] →
      ".cache" ∈ (runResets [] ([((false : Bool), ".cache"), (true, "other")] ++
        (true, ".cache") :: [(true, ".cache")])).1)) :=
  reset_once_spec [] ".cache" [((false : Bool), ".cache"), (true, "other")]
    [(true, ".cache")]

/-- A header absent under case-insensitive lookup is absent under exact
lookup. -/
theorem getField_eq_none_of_getHeaderValue_eq_none
    (fs : List (String × String)) (n : String)
    (h : getHeaderValue fs n = none) : getField fs n = none := by
  rw [getField_eq_none_iff]
  intro hmem
  simp only [List.mem_map] at hmem
  obtain ⟨⟨k, v⟩, hkv, hfst⟩ := hmem
  simp only [getHeaderValue] at h
  cases hf : List.find? (fun hv => jsToLower hv.1 = jsToLower n) fs with
  | some p => rw [hf] at h; exact Option.noConfusion h
  | none =>
    have hnp := List.find?_eq_none.mp hf _ hkv
    simp only [decide_eq_true_eq] at hnp
    have hk : k = n := hfst
    subst hk
    exact hnp rfl

/-- Case-insensitive lookup skips a prefix with no matching key. -/
theorem getHeaderValue_append (fs gs : List (String × String)) (n : String)
    (h : getHeaderValue fs n = none) :
    getHeaderValue (fs ++ gs) n = getHeaderValue gs n := by
  simp only [getHeaderValue, List.find?_append]
  simp only [getHeaderValue] at h
  cases hf : List.find? (fun hv => jsToLower hv.1 = jsToLower n) fs with
  | none => simp
  | some p => simp [hf] at h

/-- C9: when stored metadata exists and the caller did not supply its own
conditional headers, the revalidation request carries If-Modified-Since
from the stored last-modified and If-None-Match from the stored etag; a
caller that did supply conditional headers gets its headers passed through
untouched, with no stored validator injected. -/
theorem conditionalFetch_validators_spec (prev : StoredHeaders)
    (prevOpt : Option StoredHeaders) (req : List (String × String))
    (lm et : String) :
    injectValidators true prevOpt req = req ∧
    (getHeaderValue req "If-None-Match" = none →
      getHeaderValue req "If-Modified-Since" = none →
      isRequestCacheAware req = false) ∧
    (getHeaderValue req "If-None-Match" = none →
      getHeaderValue req "If-Modified-Since" = none →
      getField prev.fields "last-modified" = some lm → lm ≠ "" →
      getField prev.fields "etag" = some et → et ≠ "" →
      injectValidators false (some prev) req =
        req ++ [("If-Modified-Since", lm), ("If-None-Match", et)] ∧
      getHeaderValue (injectValidators false (some prev) req)
        "If-Modified-Since" = some lm ∧
      getHeaderValue (injectValidators false (some prev) req)
        "If-None-Match" = some et) ∧
    (getField prev.fields "last-modified" = none →
      getField prev.fields "etag" = none →
      injectValidators false (some prev) req = req) := by
  refine ⟨?_, ?_, ?_, ?_⟩
  · cases prevOpt <;> simp [injectValidators]
  · intro hinm hims
    simp [isRequestCacheAware, hinm, hims, truthyStr]
  · intro hinm hims hlm hlmne het hetne
    have hims' : getField req "If-Modified-Since" = none :=
      getField_eq_none_of_getHeaderValue_eq_none req _ hims
    have hinm' : getField req "If-None-Match" = none :=
      getField_eq_none_of_getHeaderValue_eq_none req _ hinm
    have heq : injectValidators false (some prev) req =
        req ++ [("If-Modified-Since", lm), ("If-None-Match", et)] := by
      simp only [injectValidators, hlm, het, truthyStr, Bool.not_false, Bool.and_true,
        Option.getD_some]
      rw [if_pos (decide_eq_true hetne), if_pos (decide_eq_true hlmne)]
      rw [setField_of_not_mem req _ lm ((getField_eq_none_iff req _).mp hims')]
      rw [setField_of_not_mem _ _ et]
      · simp
      · rw [← getField_eq_none_iff]
        rw [getField_append _ _ _ hinm']
        simp [getField, show ("If-Modified-Since" : String) ≠ "If-None-Match" by decide]
    refine ⟨heq, ?_, ?_⟩
    · rw [heq, getHeaderValue_append _ _ _ hims]
      simp [getHeaderValue, List.find?_cons]
    · rw [heq, getHeaderValue_append _ _ _ hinm]
      simp [getHeaderValue, List.find?_cons,
        show jsToLower "If-Modified-Since" ≠ jsToLower "If-None-Match" by decide]
  · intro hlm het
    simp [injectValidators, hlm, het, truthyStr]

/-- Witness for C9 at a concrete request and stored validators. -/
theorem conditionalFetch_validators_spec_witness :
    injectValidators true (some ⟨some 200, some "rd", [("last-modified", "lmv"), ("etag", "etv")]⟩)
      [("accept", "text/html")] = [("accept", "text/html")] ∧
    (getHeaderValue [("accept", "text/html")] "If-None-Match" = none →
      getHeaderValue [("accept", "text/html")] "If-Modified-Since" = none →
      isRequestCacheAware [("accept", "text/html")] = false) ∧
    (getHeaderValue [("accept", "text/html")] "If-None-Match" = none →
      getHeaderValue [("accept", "text/html")] "If-Modified-Since" = none →
      getField [("last-modified", "lmv"), ("etag", "etv")] "last-modified" = some "lmv" →
      "lmv" ≠ "" →
      getField [("last-modified", "lmv"), ("etag", "etv")] "etag" = some "etv" →
      "etv" ≠ "" →
      injectValidators false
          (some ⟨some 200, some "rd", [("last-modified", "lmv"), ("etag", "etv")]⟩)
          [("accept", "text/html")] =
        [("accept", "text/html")] ++
          [("If-Modified-Since", "lmv"), ("If-None-Match", "etv")] ∧
      getHeaderValue (injectValidators false
          (some ⟨some 200, some "rd", [("last-modified", "lmv"), ("etag", "etv")]⟩)
          [("accept", "text/html")]) "If-Modified-Since" = some "lmv" ∧
      getHeaderValue (injectValidators false
          (some ⟨some 200, some "rd", [("last-modified", "lmv"), ("etag", "etv")]⟩)
          [("accept", "text/html")]) "If-None-Match" = some "etv") ∧
    (getField [("last-modified", "lmv"), ("etag", "etv")] "last-modified" = none →
      getField [("last-modified", "lmv"), ("etag", "etv")] "etag" = none →
      injectValidators false
          (some ⟨some 200, some "rd", [("last-modified", "lmv"), ("etag", "etv")]⟩)
          [("accept", "text/html")] = [("accept", "text/html")]) :=
  conditionalFetch_validators_spec
    ⟨some 200, some "rd", [("last-modified", "lmv"), ("etag", "etv")]⟩
    (some ⟨some 200, some "rd", [("last-modified", "lmv"), ("etag", "etv")]⟩)
    [("accept", "text/html")] "lmv" "etv"

/-- C10: a full-body cache hit (any read that does not synthesize a 304) is
served with the stored headers plus one extra cache-status header valued
"fetch-filecache-for-crawling; hit", which is not part of the persisted
metadata: writing an entry and reading it back reproduces the stored
headers plus exactly this additional header. -/
theorem cache_status_header_spec (pd : String → Option Int)
    (req : List (String × String)) (aware : Bool) (resp : NetResp)
    (nowStr : String) (s : Store)
    (hnd : (resp.headers.map Prod.fst).Nodup)
    (hcs : "cache-status" ∉ resp.headers.map Prod.fst)
    (hs0 : resp.status ≠ 0)
    (hguard : (aware && shouldReturn304 pd req resp.headers) = false) :
    (writeEntry resp nowStr s).headers =
      some (some ⟨some resp.status, some nowStr, resp.headers⟩) ∧
    getField resp.headers "cache-status" = none ∧
    readFromCache pd req aware (writeEntry resp nowStr s) =
      some ⟨resp.status, resp.headers ++ [("cache-status", cacheHitValue)],
        .stream (some resp.body)⟩ := by
  have hfold : resp.headers.foldl storeRespHeader [] = resp.headers := by
    have := foldl_storeRespHeader_eq_append resp.headers [] hnd
      (by intro k _; simp [getField])
    simpa using this
  refine ⟨by simp [writeEntry, hfold], (getField_eq_none_iff _ _).mpr hcs, ?_⟩
  simp only [readFromCache, writeEntry, hfold, hguard, Bool.false_eq_true, if_false,
    if_neg hs0]
  rw [setField_of_not_mem _ _ _ hcs]

/-- Witness for C10 at a concrete entry. -/
theorem cache_status_header_spec_witness :
    (writeEntry ⟨200, [("etag", "abc")], "body"⟩ "now" ⟨none, none⟩).headers =
      some (some ⟨some 200, some "now", [("etag", "abc")]⟩) ∧
    getField [("etag", "abc")] "cache-status" = none ∧
    readFromCache (fun _ => none) [] false
        (writeEntry ⟨200, [("etag", "abc")], "body"⟩ "now" ⟨none, none⟩) =
      some ⟨200, [("etag", "abc")] ++ [("cache-status", cacheHitValue)],
        .stream (some "body")⟩ :=
  cache_status_header_spec (fun _ => none) [] false ⟨200, [("etag", "abc")], "body"⟩
    "now" ⟨none, none⟩ (by simp) (by simp) (by simp) (by simp)

/-- The 304 header copy never touches the received and status members. -/
theorem foldl_copy304Header_received (hs : List (String × String)) :
    ∀ p : StoredHeaders, (hs.foldl copy304Header p).received = p.received ∧
      (hs.foldl copy304Header p).status = p.status := by
  induction hs with
  | nil => intro p; exact ⟨rfl, rfl⟩
  | cons hd tl ih =>
    intro p
    simp only [List.foldl_cons]
    refine ⟨?_, ?_⟩
    · rw [(ih (copy304Header p hd)).1]
      unfold copy304Header
      split <;> rfl
    · rw [(ih (copy304Header p hd)).2]
      unfold copy304Header
      split <;> rfl

/-- The 304 header copy leaves every key outside the copied trio alone. -/
theorem foldl_copy304Header_getField_ne (hs : List (String × String)) (k : String)
    (hk : k ≠ "expires" ∧ k ≠ "cache-control" ∧ k ≠ "date") :
    ∀ p : StoredHeaders,
      getField (hs.foldl copy304Header p).fields k = getField p.fields k := by
  induction hs with
  | nil => intro p; rfl
  | cons hd tl ih =>
    intro p
    simp only [List.foldl_cons]
    rw [ih (copy304Header p hd)]
    unfold copy304Header
    split
    · next h3 =>
      have hne : hd.1 ≠ k := by
        rcases h3 with h | h | h <;> rw [h] <;>
          [exact fun he => hk.1 he.symm; exact fun he => hk.2.1 he.symm;
           exact fun he => hk.2.2 he.symm]
      simp only
      exact getField_setField_ne _ _ _ _ hne
    · rfl

/-- The 304 header copy leaves keys it never sees alone. -/
theorem foldl_copy304Header_not_mem (hs : List (String × String)) (k : String)
    (hknot : k ∉ hs.map Prod.fst) :
    ∀ p : StoredHeaders,
      getField (hs.foldl copy304Header p).fields k = getField p.fields k := by
  induction hs with
  | nil => intro p; rfl
  | cons hd tl ih =>
    intro p
    simp only [List.map_cons, List.mem_cons, not_or] at hknot
    simp only [List.foldl_cons]
    rw [ih hknot.2 (copy304Header p hd)]
    unfold copy304Header
    split
    · simp only
      exact getField_setField_ne _ _ _ _ (Ne.symm hknot.1)
    · rfl

/-- A copied header of the trio ends up stored with its response value. -/
theorem foldl_copy304Header_mem (hs : List (String × String))
    (hnd : (hs.map Prod.fst).Nodup) (k v : String) (hkv : (k, v) ∈ hs)
    (hk3 : k = "expires" ∨ k = "cache-control" ∨ k = "date") :
    ∀ p : StoredHeaders, getField (hs.foldl copy304Header p).fields k = some v := by
  induction hs with
  | nil => simp at hkv
  | cons hd tl ih =>
    intro p
    simp only [List.map_cons, List.nodup_cons] at hnd
    rcases List.mem_cons.mp hkv with heq | hmem
    · subst heq
      simp only [List.foldl_cons]
      have hnotin : k ∉ tl.map Prod.fst := by simpa using hnd.1
      rw [foldl_copy304Header_not_mem tl k hnotin]
      unfold copy304Header
      rw [if_pos hk3]
      exact getField_setField_self _ _ _
    · have hne : hd.1 ≠ k := by
        intro he
        exact hnd.1 (he ▸ (List.mem_map.mpr ⟨(k, v), hmem, rfl⟩))
      simp only [List.foldl_cons]
      exact ih hnd.2 hmem (copy304Header p hd)

/-- C5 counterexample: a cached entry with etag abc and stored status 200 is
revalidated (the network answers 304) on behalf of a cache-aware caller
whose If-None-Match matches; the served response has status 304, not the
originally cached 200. -/
theorem revalidation_304_cache_aware_counterexample :
    servedStatus (conditionalFetch (fun _ => none)
      (fun _ => .ok ⟨304, [("date", "d")], ""⟩) (fun _ => 0)
      [("If-None-Match", "abc")]
      (some ⟨some 200, some "r0", [("etag", "abc")]⟩) "now"
      ⟨some "oldbody", some (some ⟨some 200, some "r0", [("etag", "abc")]⟩)⟩).1 =
      some 304 := by
  decide

/-- C5 amended: when a cached entry is revalidated and the network answers
304, the stored body file is untouched, the stored receivedAt becomes the
current time, exactly the expires / cache-control / date headers are copied
from the 304 response (every other stored header is unchanged), and a
caller that did not itself send conditional headers is served the
originally cached status; a cache-aware caller whose validators match
receives a synthesized 304 instead. -/
theorem revalidation_304_spec (pd : String → Option Int) (net : Nat → FetchResult)
    (rand : Nat → Nat) (req : List (String × String)) (prev : StoredHeaders)
    (resp : NetResp) (s : Store) (nowStr : String) (st : Nat) (k v : String)
    (haware : isRequestCacheAware req = false)
    (hnet : net 0 = .ok resp)
    (hst : resp.status = 304)
    (hnd : (resp.headers.map Prod.fst).Nodup)
    (hstatus : prev.status = some st) (hst0 : st ≠ 0) :
    ((conditionalFetch pd net rand req (some prev) nowStr s).2).body = s.body ∧
    (conditionalFetch pd net rand req (some prev) nowStr s).2.headers =
      some (some (update304Headers prev resp.headers nowStr)) ∧
    (update304Headers prev resp.headers nowStr).received = some nowStr ∧
    (update304Headers prev resp.headers nowStr).status = prev.status ∧
    ((k ≠ "expires" ∧ k ≠ "cache-control" ∧ k ≠ "date") →
      getField (update304Headers prev resp.headers nowStr).fields k =
        getField prev.fields k) ∧
    ((k = "expires" ∨ k = "cache-control" ∨ k = "date") → (k, v) ∈ resp.headers →
      getField (update304Headers prev resp.headers nowStr).fields k = some v) ∧
    (conditionalFetch pd net rand req (some prev) nowStr s).1 =
      .fromCache (some ⟨st,
        setField (update304Headers prev resp.headers nowStr).fields
          "cache-status" cacheHitValue, .stream s.body⟩) ∧
    servedStatus (conditionalFetch pd net rand req (some prev) nowStr s).1 =
      some st := by
  have hwr : fetchWithRetry net rand 0 3 = (.ok resp, []) :=
    fetchWithRetry_ok net rand 0 3 resp hnet
  have hsave : saveToCacheIfNeeded resp (some prev) nowStr s =
      ({ s with headers := some (some (update304Headers prev resp.headers nowStr)) },
        true) := by
    simp [saveToCacheIfNeeded, hst]
  have hcf : conditionalFetch pd net rand req (some prev) nowStr s =
      (.fromCache (readFromCache pd (injectValidators false (some prev) req) false
        { s with headers := some (some (update304Headers prev resp.headers nowStr)) }),
       { s with headers := some (some (update304Headers prev resp.headers nowStr)) }) := by
    simp [conditionalFetch, haware, hwr, hsave]
  have hread : readFromCache pd (injectValidators false (some prev) req) false
      { s with headers := some (some (update304Headers prev resp.headers nowStr)) } =
      some ⟨st, setField (update304Headers prev resp.headers nowStr).fields
        "cache-status" cacheHitValue, .stream s.body⟩ := by
    have hstat : (update304Headers prev resp.headers nowStr).status = some st := by
      show (resp.headers.foldl copy304Header
        { prev with received := some nowStr }).status = some st
      rw [(foldl_copy304Header_received resp.headers _).2]
      exact hstatus
    simp [readFromCache, hstat, hst0]
  refine ⟨by rw [hcf], by rw [hcf], (foldl_copy304Header_received resp.headers _).1,
    (foldl_copy304Header_received resp.headers _).2, ?_, ?_, ?_, ?_⟩
  · intro hk
    exact foldl_copy304Header_getField_ne resp.headers k hk _
  · intro hk3 hkv
    exact foldl_copy304Header_mem resp.headers hnd k v hkv hk3 _
  · rw [hcf, hread]
  · rw [hcf, hread]
    rfl

/-- Witness for C5's amended statement: revalidation of a concrete entry
with a 304 answer carrying a fresh date header. -/
theorem revalidation_304_spec_witness :
    ((conditionalFetch (fun _ => none) (fun _ => .ok ⟨304, [("date", "d2")], ""⟩)
        (fun _ => 0) [] (some ⟨some 200, some "r0", [("etag", "abc")]⟩) "now"
        ⟨some "oldbody", some (some ⟨some 200, some "r0", [("etag", "abc")]⟩)⟩).2).body =
      (⟨some "oldbody", some (some ⟨some 200, some "r0", [("etag", "abc")]⟩)⟩ : Store).body ∧
    (conditionalFetch (fun _ => none) (fun _ => .ok ⟨304, [("date", "d2")], ""⟩)
        (fun _ => 0) [] (some ⟨some 200, some "r0", [("etag", "abc")]⟩) "now"
        ⟨some "oldbody", some (some ⟨some 200, some "r0", [("etag", "abc")]⟩)⟩).2.headers =
      some (some (update304Headers ⟨some 200, some "r0", [("etag", "abc")]⟩
        [("date", "d2")] "now")) ∧
    (update304Headers ⟨some 200, some "r0", [("etag", "abc")]⟩
      [("date", "d2")] "now").received = some "now" ∧
    (update304Headers ⟨some 200, some "r0", [("etag", "abc")]⟩
      [("date", "d2")] "now").status =
        (⟨some 200, some "r0", [("etag", "abc")]⟩ : StoredHeaders).status ∧
    (("etag" ≠ "expires" ∧ "etag" ≠ "cache-control" ∧ "etag" ≠ "date") →
      getField (update304Headers ⟨some 200, some "r0", [("etag", "abc")]⟩
        [("date", "d2")] "now").fields "etag" =
        getField [("etag", "abc")] "etag") ∧
    (("etag" = "expires" ∨ "etag" = "cache-control" ∨ "etag" = "date") →
      ("etag", "d2") ∈ [("date", "d2")] →
      getField (update304Headers ⟨some 200, some "r0", [("etag", "abc")]⟩
        [("date", "d2")] "now").fields "etag" = some "d2") ∧
    (conditionalFetch (fun _ => none) (fun _ => .ok ⟨304, [("date", "d2")], ""⟩)
        (fun _ => 0) [] (some ⟨some 200, some "r0", [("etag", "abc")]⟩) "now"
        ⟨some "oldbody", some (some ⟨some 200, some "r0", [("etag", "abc")]⟩)⟩).1 =
      .fromCache (some ⟨200,
        setField (update304Headers ⟨some 200, some "r0", [("etag", "abc")]⟩
          [("date", "d2")] "now").fields "cache-status" cacheHitValue,
        .stream (some "oldbody")⟩) ∧
    servedStatus (conditionalFetch (fun _ => none)
        (fun _ => .ok ⟨304, [("date", "d2")], ""⟩) (fun _ => 0) []
        (some ⟨some 200, some "r0", [("etag", "abc")]⟩) "now"
        ⟨some "oldbody", some (some ⟨some 200, some "r0", [("etag", "abc")]⟩)⟩).1 =
      some 200 :=
  revalidation_304_spec (fun _ => none) (fun _ => .ok ⟨304, [("date", "d2")], ""⟩)
    (fun _ => 0) [] ⟨some 200, some "r0", [("etag", "abc")]⟩ ⟨304, [("date", "d2")], ""⟩
    ⟨some "oldbody", some (some ⟨some 200, some "r0", [("etag", "abc")]⟩)⟩ "now" 200
    "etag" "d2" (by decide) rfl rfl (by decide) rfl (by decide)

/-- C6: a caller whose request carries a conditional validator matching the
stored entry (If-None-Match equal to the stored etag, including the weak
W/ comparison forms, or else If-Modified-Since at or after the stored
last-modified date) is served, while the entry is fresh, a synthesized 304
whose body is empty and whose headers all come from the cache-relevant
set. -/
theorem cache_aware_304_spec (pd : String → Option Int) (launchTime now : Int)
    (req : List (String × String)) (refresh : Refresh) (s : Store)
    (h : StoredHeaders) (et d lm : String) (t1 t2 : Int)
    (hstore : s.headers = some (some h))
    (hfresh : hasExpired pd launchTime now (some h) refresh = false) :
    (isRequestCacheAware req = true → shouldReturn304 pd req h.fields = true →
      serveStatus (ownerPath pd launchTime now req refresh s) = some 304 ∧
      serveBody (ownerPath pd launchTime now req refresh s) = some .empty ∧
      ∀ k ∈ serveHeaderNames (ownerPath pd launchTime now req refresh s),
        k ∈ headers304) ∧
    (getHeaderValue req "If-None-Match" = some et →
      ((jsSplit et ',').map jsTrim).filter (fun v => v ≠ "") = [et] →
      getField h.fields "etag" = some et →
      shouldReturn304 pd req h.fields = true) ∧
    (getHeaderValue req "If-None-Match" = some ("W/" ++ et) →
      ((jsSplit ("W/" ++ et) ',').map jsTrim).filter (fun v => v ≠ "") = ["W/" ++ et] →
      getField h.fields "etag" = some et →
      shouldReturn304 pd req h.fields = true) ∧
    (getHeaderValue req "If-None-Match" = some et →
      ((jsSplit et ',').map jsTrim).filter (fun v => v ≠ "") = [et] →
      getField h.fields "etag" = some ("W/" ++ et) →
      shouldReturn304 pd req h.fields = true) ∧
    (getHeaderValue req "If-None-Match" = none →
      getHeaderValue req "If-Modified-Since" = some d → d ≠ "" →
      pd d = some t1 → getField h.fields "last-modified" = some lm →
      pd lm = some t2 → t2 ≤ t1 →
      shouldReturn304 pd req h.fields = true) := by
  refine ⟨?_, ?_, ?_, ?_, ?_⟩
  · intro haware h304
    have hOwner : ownerPath pd launchTime now req refresh s =
        .serve (some ⟨304, h.fields.filter (fun kv => kv.1 ∈ headers304), .empty⟩) := by
      unfold ownerPath
      rw [show readHeadersFromCache s = some h by simp [readHeadersFromCache, hstore]]
      rw [if_neg (by simp [hfresh])]
      simp [readFromCache, hstore, haware, h304]
    refine ⟨by rw [hOwner]; rfl, by rw [hOwner]; rfl, ?_⟩
    intro k hk
    rw [hOwner] at hk
    simp only [serveHeaderNames, List.mem_map] at hk
    obtain ⟨kv, hkv, rfl⟩ := hk
    exact of_decide_eq_true (List.mem_filter.mp hkv).2
  · intro hinm hsplit hetag
    simp only [shouldReturn304, hinm, Option.getD_some, hsplit, hetag]
    simp
  · intro hinm hsplit hetag
    simp only [shouldReturn304, hinm, Option.getD_some, hsplit, hetag]
    simp
  · intro hinm hsplit hetag
    simp only [shouldReturn304, hinm, Option.getD_some, hsplit, hetag]
    simp
  · intro hinm hims hdne hpd hlm hplm hge
    simp only [shouldReturn304, hinm, Option.getD_none,
      show ((jsSplit "" ',').map jsTrim).filter (fun v => v ≠ "") = ([] : List String)
        from by decide]
    rw [if_neg (by simp)]
    simp [hims, truthy?, hdne, hpd, hlm, hplm, jsGe, hge]

/-- Witness for C6: a fresh entry with etag abc served to a caller sending
a matching If-None-Match. -/
theorem cache_aware_304_spec_witness :
    ((isRequestCacheAware [("If-None-Match", "abc")] = true →
      shouldReturn304 (fun _ => none) [("If-None-Match", "abc")]
        [("etag", "abc"), ("content-type", "text/html")] = true →
      serveStatus (ownerPath (fun _ => none) 0 100 [("If-None-Match", "abc")]
        (.str "never")
        ⟨some "body", some (some ⟨some 200, some "r0",
          [("etag", "abc"), ("content-type", "text/html")]⟩)⟩) = some 304 ∧
      serveBody (ownerPath (fun _ => none) 0 100 [("If-None-Match", "abc")]
        (.str "never")
        ⟨some "body", some (some ⟨some 200, some "r0",
          [("etag", "abc"), ("content-type", "text/html")]⟩)⟩) = some .empty ∧
      ∀ k ∈ serveHeaderNames (ownerPath (fun _ => none) 0 100
        [("If-None-Match", "abc")] (.str "never")
        ⟨some "body", some (some ⟨some 200, some "r0",
          [("etag", "abc"), ("content-type", "text/html")]⟩)⟩), k ∈ headers304) ∧
    (getHeaderValue [("If-None-Match", "abc")] "If-None-Match" = some "abc" →
      ((jsSplit "abc" ',').map jsTrim).filter (fun v => v ≠ "") = ["abc"] →
      getField [("etag", "abc"), ("content-type", "text/html")] "etag" = some "abc" →
      shouldReturn304 (fun _ => none) [("If-None-Match", "abc")]
        [("etag", "abc"), ("content-type", "text/html")] = true) ∧
    (getHeaderValue [("If-None-Match", "abc")] "If-None-Match" = some ("W/" ++ "abc") →
      ((jsSplit ("W/" ++ "abc") ',').map jsTrim).filter (fun v => v ≠ "") =
        ["W/" ++ "abc"] →
      getField [("etag", "abc"), ("content-type", "text/html")] "etag" = some "abc" →
      shouldReturn304 (fun _ => none) [("If-None-Match", "abc")]
        [("etag", "abc"), ("content-type", "text/html")] = true) ∧
    (getHeaderValue [("If-None-Match", "abc")] "If-None-Match" = some "abc" →
      ((jsSplit "abc" ',').map jsTrim).filter (fun v => v ≠ "") = ["abc"] →
      getField [("etag", "abc"), ("content-type", "text/html")] "etag" =
        some ("W/" ++ "abc") →
      shouldReturn304 (fun _ => none) [("If-None-Match", "abc")]
        [("etag", "abc"), ("content-type", "text/html")] = true) ∧
    (getHeaderValue [("If-None-Match", "abc")] "If-None-Match" = none →
      getHeaderValue [("If-None-Match", "abc")] "If-Modified-Since" = some "d1" →
      "d1" ≠ "" → (fun _ : String => (none : Option Int)) "d1" = some 10 →
      getField [("etag", "abc"), ("content-type", "text/html")] "last-modified" =
        some "lm1" →
      (fun _ : String => (none : Option Int)) "lm1" = some 5 → (5 : Int) ≤ 10 →
      shouldReturn304 (fun _ => none) [("If-None-Match", "abc")]
        [("etag", "abc"), ("content-type", "text/html")] = true)) :=
  cache_aware_304_spec (fun _ => none) 0 100 [("If-None-Match", "abc")] (.str "never")
    ⟨some "body", some (some ⟨some 200, some "r0",
      [("etag", "abc"), ("content-type", "text/html")]⟩)⟩
    ⟨some 200, some "r0", [("etag", "abc"), ("content-type", "text/html")]⟩
    "abc" "d1" "lm1" 10 5 rfl (by decide)

/-- C8 counterexample: a cache entry with a fresh metadata record but no
body file is not treated as absent — under refresh mode never the read path
serves a response built from the metadata (status 200, body stream over
the missing file) instead of going to the network. -/
theorem partial_entry_counterexample :
    ownerPath (fun _ => none) 0 100 [] (.str "never")
        ⟨none, some (some ⟨some 200, some "r", []⟩)⟩ =
      .serve (some ⟨200, [("cache-status", cacheHitValue)], .stream none⟩) := by
  decide

/-- C8 amended: a partial entry lacking the metadata record — the headers
file missing or malformed — is treated by the read path as absent and
triggers a network fetch, regardless of the body file; a metadata record
without a body file, however, is not detected: when the metadata is fresh
the entry is served, with a body stream over the missing file, rather than
being treated as absent. -/
theorem partial_entry_spec (pd : String → Option Int) (launchTime now : Int)
    (req : List (String × String)) (refresh : Refresh) (body : Option String)
    (h : StoredHeaders) :
    ownerPath pd launchTime now req refresh ⟨body, none⟩ = .network ∧
    ownerPath pd launchTime now req refresh ⟨body, some none⟩ = .network ∧
    (hasExpired pd launchTime now (some h) refresh = false →
      isRequestCacheAware req = false →
      ownerPath pd launchTime now req refresh ⟨none, some (some h)⟩ =
        .serve (readFromCache pd req false ⟨none, some (some h)⟩) ∧
      serveBody (ownerPath pd launchTime now req refresh ⟨none, some (some h)⟩) =
        some (.stream none)) := by
  refine ⟨by simp [ownerPath, readHeadersFromCache, hasExpired],
    by simp [ownerPath, readHeadersFromCache, hasExpired], ?_⟩
  intro hfresh haware
  have hOwner : ownerPath pd launchTime now req refresh ⟨none, some (some h)⟩ =
      .serve (readFromCache pd req false ⟨none, some (some h)⟩) := by
    unfold ownerPath
    rw [show readHeadersFromCache ⟨none, some (some h)⟩ = some h from rfl]
    rw [if_neg (by simp [hfresh]), haware]
  refine ⟨hOwner, ?_⟩
  rw [hOwner]
  simp [readFromCache, haware, serveBody]

/-- Witness for C8's amended statement at a concrete fresh metadata-only
entry. -/
theorem partial_entry_spec_witness :
    ownerPath (fun _ => none) 0 100 [] (.str "never") ⟨some "b", none⟩ = .network ∧
    ownerPath (fun _ => none) 0 100 [] (.str "never") ⟨some "b", some none⟩ =
      .network ∧
    (hasExpired (fun _ => none) 0 100 (some ⟨some 200, some "r", []⟩)
        (.str "never") = false →
      isRequestCacheAware [] = false →
      ownerPath (fun _ => none) 0 100 [] (.str "never")
          ⟨none, some (some ⟨some 200, some "r", []⟩)⟩ =
        .serve (readFromCache (fun _ => none) [] false
          ⟨none, some (some ⟨some 200, some "r", []⟩)⟩) ∧
      serveBody (ownerPath (fun _ => none) 0 100 [] (.str "never")
          ⟨none, some (some ⟨some 200, some "r", []⟩)⟩) = some (.stream none)) :=
  partial_entry_spec (fun _ => none) 0 100 [] (.str "never") (some "b")
    ⟨some 200, some "r", []⟩

/-- A position holding a value is inside the list. -/
theorem lt_length_of_getElem? {l : List TPhase} {i : Nat} {t : TPhase}
    (h : l[i]? = some t) : i < l.length :=
  (List.getElem?_eq_some.mp h).1

/-- An arrival preserves the pre-resolution invariants. -/
theorem stepABC_arrive (P : SysParams) (K : Nat) (s s' : SysState) (i : Nat)
    (hstep : step P s (.arrive i) = some s')
    (hinv : InvA K s ∨ InvB K s ∨ InvC P K s) :
    InvA K s' ∨ InvB K s' ∨ InvC P K s' := by
  simp only [step] at hstep
  cases hti : s.threads[i]? with
  | none => rw [hti] at hstep; exact absurd hstep (by simp)
  | some t =>
    rw [hti] at hstep
    have hi : i < s.threads.length := lt_length_of_getElem? hti
    cases t with
    | start =>
      simp only at hstep
      rcases hinv with hA | hB | hC
      · -- first arrival: the caller becomes the owner
        rw [hA.1] at hstep
        simp only [Bool.false_eq_true, if_false, Option.some.injEq] at hstep
        subst hstep
        refine Or.inr (Or.inl ⟨rfl, hA.2.1, hA.2.2.1, ?_, i, ?_, ?_⟩)
        · simpa using hA.2.2.2.1
        · exact List.getElem?_set_self hi
        · intro j t' hj ht'
          rw [List.getElem?_set_ne (Ne.symm hj)] at ht'
          exact Or.inl (hA.2.2.2.2 j t' ht')
      · -- a later simultaneous caller becomes a waiter
        rw [hB.1] at hstep
        simp only [if_true, Option.some.injEq] at hstep
        subst hstep
        obtain ⟨o, ho, hothers⟩ := hB.2.2.2.2
        have hio : i ≠ o := by
          intro he
          rw [he, ho] at hti
          exact TPhase.noConfusion (Option.some.inj hti)
        refine Or.inr (Or.inl ⟨rfl, hB.2.1, hB.2.2.1, by simpa using hB.2.2.2.1,
          o, ?_, ?_⟩)
        · rw [List.getElem?_set_ne hio]
          exact ho
        · intro j t' hj ht'
          by_cases hji : j = i
          · subst hji
            rw [List.getElem?_set_self hi] at ht'
            exact Or.inr (Option.some.inj ht').symm
          · rw [List.getElem?_set_ne (Ne.symm hji)] at ht'
            exact hothers j t' hj ht'
      · rw [hC.1] at hstep
        simp only [if_true, Option.some.injEq] at hstep
        subst hstep
        obtain ⟨o, ho, hothers⟩ := hC.2.2.2.2
        have hio : i ≠ o := by
          intro he
          rw [he, ho] at hti
          exact TPhase.noConfusion (Option.some.inj hti)
        refine Or.inr (Or.inr ⟨rfl, hC.2.1, hC.2.2.1, by simpa using hC.2.2.2.1,
          o, ?_, ?_⟩)
        · rw [List.getElem?_set_ne hio]
          exact ho
        · intro j t' hj ht'
          by_cases hji : j = i
          · subst hji
            rw [List.getElem?_set_self hi] at ht'
            exact Or.inr (Option.some.inj ht').symm
          · rw [List.getElem?_set_ne (Ne.symm hji)] at ht'
            exact hothers j t' hj ht'
    | waiting => exact absurd hstep (by simp)
    | flight => exact absurd hstep (by simp)
    | fetched => exact absurd hstep (by simp)
    | done r => exact absurd hstep (by simp)

/-- The network step turns the owner invariant B into C: the single flight
thread reads the absent entry, fetches, and persists. -/
theorem stepABC_net (P : SysParams) (K : Nat) (s s' : SysState) (i : Nat)
    (hstep : step P s (.net i) = some s')
    (hinv : InvA K s ∨ InvB K s ∨ InvC P K s) : InvC P K s' := by
  simp only [step] at hstep
  cases hti : s.threads[i]? with
  | none => rw [hti] at hstep; exact absurd hstep (by simp)
  | some t =>
    rw [hti] at hstep
    have hi : i < s.threads.length := lt_length_of_getElem? hti
    cases t with
    | start => exact absurd hstep (by simp)
    | waiting => exact absurd hstep (by simp)
    | fetched => exact absurd hstep (by simp)
    | done r => exact absurd hstep (by simp)
    | flight =>
      rcases hinv with hA | hB | hC
      · exact absurd (hA.2.2.2.2 i .flight hti) (by simp)
      · obtain ⟨o, ho, hothers⟩ := hB.2.2.2.2
        have hio : i = o := by
          by_contra hne
          exact absurd (hothers i .flight hne hti) (by simp)
        have hexp : hasExpired P.pd P.launchTime P.now
            (readHeadersFromCache s.store) P.refresh = true := by
          rw [hB.2.2.1]
          rfl
        simp only [hexp, if_true, Option.some.injEq] at hstep
        subst hstep
        refine ⟨hB.1, by simp [hB.2.1], rfl, by simpa using hB.2.2.2.1, i,
          List.getElem?_set_self hi, ?_⟩
        intro j t' hj ht'
        rw [List.getElem?_set_ne (Ne.symm hj)] at ht'
        exact hothers j t' (hio ▸ hj) ht'
      · obtain ⟨o, ho, hothers⟩ := hC.2.2.2.2
        have hio : i ≠ o := by
          intro he
          rw [he, ho] at hti
          exact TPhase.noConfusion (Option.some.inj hti)
        exact absurd (hothers i .flight hio hti) (by simp)

/-- The resolve step turns invariant C into D: the owner serves itself from
the persisted store and removes the pending handle. -/
theorem stepC_resolve (P : SysParams) (K : Nat) (s s' : SysState) (i : Nat)
    (hstep : step P s (.resolve i) = some s')
    (hinv : InvA K s ∨ InvB K s ∨ InvC P K s) : InvD P K s' := by
  simp only [step] at hstep
  cases hti : s.threads[i]? with
  | none => rw [hti] at hstep; exact absurd hstep (by simp)
  | some t =>
    rw [hti] at hstep
    have hi : i < s.threads.length := lt_length_of_getElem? hti
    cases t with
    | start => exact absurd hstep (by simp)
    | waiting => exact absurd hstep (by simp)
    | flight => exact absurd hstep (by simp)
    | done r => exact absurd hstep (by simp)
    | fetched =>
      rcases hinv with hA | hB | hC
      · exact absurd (hA.2.2.2.2 i .fetched hti) (by simp)
      · obtain ⟨o, ho, hothers⟩ := hB.2.2.2.2
        have hio : i ≠ o := by
          intro he
          rw [he, ho] at hti
          exact TPhase.noConfusion (Option.some.inj hti)
        exact absurd (hothers i .fetched hio hti) (by simp)
      · obtain ⟨o, ho, hothers⟩ := hC.2.2.2.2
        have hio : i = o := by
          by_contra hne
          exact absurd (hothers i .fetched hne hti) (by simp)
        simp only [Option.some.injEq] at hstep
        subst hstep
        refine ⟨rfl, hC.2.1, hC.2.2.1, by simpa using hC.2.2.2.1, ?_⟩
        intro j t' ht'
        by_cases hji : j = i
        · subst hji
          rw [List.getElem?_set_self hi] at ht'
          refine Or.inr (Or.inr ?_)
          rw [← Option.some.inj ht']
          rw [hC.2.2.1]
          rfl
        · rw [List.getElem?_set_ne (Ne.symm hji)] at ht'
          rcases hothers j t' (hio ▸ hji) ht' with h | h
          · exact Or.inl h
          · exact Or.inr (Or.inl h)

/-- The wake step preserves invariant D: a waiter re-reads the persisted
store. -/
theorem stepD_wake (P : SysParams) (K : Nat) (s s' : SysState) (i : Nat)
    (hstep : step P s (.wake i) = some s') (hinv : InvD P K s) : InvD P K s' := by
  simp only [step] at hstep
  cases hti : s.threads[i]? with
  | none => rw [hti] at hstep; exact absurd hstep (by simp)
  | some t =>
    rw [hti] at hstep
    have hi : i < s.threads.length := lt_length_of_getElem? hti
    cases t with
    | start => exact absurd hstep (by simp)
    | flight => exact absurd hstep (by simp)
    | fetched => exact absurd hstep (by simp)
    | done r => exact absurd hstep (by simp)
    | waiting =>
      rw [hinv.1] at hstep
      simp only [Bool.false_eq_true, if_false, Option.some.injEq] at hstep
      subst hstep
      refine ⟨rfl, hinv.2.1, hinv.2.2.1, by simpa using hinv.2.2.2.1, ?_⟩
      intro j t' ht'
      by_cases hji : j = i
      · subst hji
        rw [List.getElem?_set_self hi] at ht'
        refine Or.inr (Or.inr ?_)
        rw [← Option.some.inj ht']
        rw [hinv.2.2.1]
        rfl
      · rw [List.getElem?_set_ne (Ne.symm hji)] at ht'
        exact hinv.2.2.2.2 j t' ht'

/-- In the pre-resolution invariants no thread waits on a resolved handle,
so the wake step is disabled. -/
theorem stepABC_wake_disabled (P : SysParams) (K : Nat) (s : SysState) (i : Nat)
    (hinv : InvA K s ∨ InvB K s ∨ InvC P K s) : step P s (.wake i) = none := by
  simp only [step]
  cases hti : s.threads[i]? with
  | none => rfl
  | some t =>
    cases t with
    | start => rfl
    | flight => rfl
    | fetched => rfl
    | done r => rfl
    | waiting =>
      rcases hinv with hA | hB | hC
      · exact absurd (hA.2.2.2.2 i .waiting hti) (by simp)
      · rw [hB.1]
        rfl
      · rw [hC.1]
        rfl

/-- Post-resolution, the network and resolve steps are disabled and an
arrival would be the only way to leave invariant D. -/
theorem stepD_net_resolve_disabled (P : SysParams) (K : Nat) (s : SysState)
    (i : Nat) (hinv : InvD P K s) :
    step P s (.net i) = none ∧ step P s (.resolve i) = none := by
  constructor <;> simp only [step] <;>
    cases hti : s.threads[i]? with
    | none => rfl
    | some t =>
      rcases hinv.2.2.2.2 i t hti with h | h | h <;> subst h <;> rfl

/-- Once resolved, an arrival-free run stays in invariant D. -/
theorem runD_noArrive (P : SysParams) (K : Nat) :
    ∀ (es : List Event) (s final : SysState),
      run P s es = some final → InvD P K s → noArrive es = true →
      InvD P K final := by
  intro es
  induction es with
  | nil =>
    intro s final hrun hD _
    simp only [run, Option.some.injEq] at hrun
    exact hrun ▸ hD
  | cons e es ih =>
    intro s final hrun hD hna
    simp only [noArrive, List.all_cons, Bool.and_eq_true] at hna
    cases e with
    | arrive i => simp at hna
    | net i =>
      rw [show run P s (Event.net i :: es) =
        match step P s (.net i) with
        | some s' => run P s' es
        | none => none from rfl,
        (stepD_net_resolve_disabled P K s i hD).1] at hrun
      exact absurd hrun (by simp)
    | resolve i =>
      rw [show run P s (Event.resolve i :: es) =
        match step P s (.resolve i) with
        | some s' => run P s' es
        | none => none from rfl,
        (stepD_net_resolve_disabled P K s i hD).2] at hrun
      exact absurd hrun (by simp)
    | wake i =>
      simp only [run] at hrun
      cases hstep : step P s (.wake i) with
      | none => rw [hstep] at hrun; exact absurd hrun (by simp)
      | some s' =>
        rw [hstep] at hrun
        exact ih s' final hrun (stepD_wake P K s s' i hstep hD)
          (by simpa [noArrive] using hna.2)

/-- A simultaneous run from a pre-resolution state ends in one of the four
invariants. -/
theorem runABC (P : SysParams) (K : Nat) :
    ∀ (es : List Event) (s final : SysState),
      run P s es = some final → (InvA K s ∨ InvB K s ∨ InvC P K s) →
      simultaneous es = true →
      InvA K final ∨ InvB K final ∨ InvC P K final ∨ InvD P K final := by
  intro es
  induction es with
  | nil =>
    intro s final hrun hinv _
    simp only [run, Option.some.injEq] at hrun
    subst hrun
    tauto
  | cons e es ih =>
    intro s final hrun hinv hsim
    cases e with
    | arrive i =>
      simp only [run] at hrun
      cases hstep : step P s (.arrive i) with
      | none => rw [hstep] at hrun; exact absurd hrun (by simp)
      | some s' =>
        rw [hstep] at hrun
        exact ih s' final hrun (stepABC_arrive P K s s' i hstep hinv)
          (by simpa [simultaneous] using hsim)
    | net i =>
      simp only [run] at hrun
      cases hstep : step P s (.net i) with
      | none => rw [hstep] at hrun; exact absurd hrun (by simp)
      | some s' =>
        rw [hstep] at hrun
        exact ih s' final hrun (Or.inr (Or.inr (stepABC_net P K s s' i hstep hinv)))
          (by simpa [simultaneous] using hsim)
    | wake i =>
      simp only [run, stepABC_wake_disabled P K s i hinv] at hrun
      exact absurd hrun (by simp)
    | resolve i =>
      simp only [run] at hrun
      cases hstep : step P s (.resolve i) with
      | none => rw [hstep] at hrun; exact absurd hrun (by simp)
      | some s' =>
        rw [hstep] at hrun
        have hD := stepC_resolve P K s s' i hstep hinv
        have hna : noArrive es = true := by simpa [simultaneous] using hsim
        exact Or.inr (Or.inr (Or.inr (runD_noArrive P K es s' final hrun hD hna)))

/-- C3: K simultaneous callers of the same URL with no prior cache entry
trigger exactly one network call; every caller is served the response the
single persisted entry produces (the later callers re-read the cache after
the first caller resolved), and that response is successful, carrying the
network status and the persisted body. -/
theorem single_flight_spec (P : SysParams) (K : Nat) (es : List Event)
    (final : SysState) (hK : 1 ≤ K)
    (hrun : run P (initState K) es = some final)
    (hsim : simultaneous es = true)
    (hdone : allDone final = true) :
    final.netCalls = 1 ∧
    final.store = postStore P ∧
    (∀ t ∈ final.threads, t = .done (doneResp P)) ∧
    (doneResp P).isSome = true ∧
    (P.netResp.status ≠ 0 →
      (doneResp P).map CachedResponse.status = some P.netResp.status) ∧
    (doneResp P).map CachedResponse.body =
      some (.stream (some P.netResp.body)) := by
  have hinit : InvA K (initState K) := by
    refine ⟨rfl, rfl, rfl, by simp [initState], ?_⟩
    intro j t ht
    rw [show (initState K).threads = List.replicate K .start from rfl,
      List.getElem?_replicate] at ht
    split at ht
    · exact (Option.some.inj ht).symm
    · exact absurd ht (by simp)
  have hall := List.all_eq_true.mp hdone
  have hfin := runABC P K es (initState K) final hrun (Or.inl hinit) hsim
  have hD : InvD P K final := by
    rcases hfin with hA | hB | hC | hD
    · exfalso
      have hlen : 0 < final.threads.length := by rw [hA.2.2.2.1]; omega
      have h0 : final.threads[0]? = some final.threads[0] :=
        List.getElem?_eq_getElem hlen
      have hstart := hA.2.2.2.2 0 _ h0
      have hmem : final.threads[0] ∈ final.threads := List.getElem_mem hlen
      have := hall _ hmem
      rw [hstart] at this
      exact absurd this (by simp)
    · exfalso
      obtain ⟨o, ho, _⟩ := hB.2.2.2.2
      obtain ⟨hlt, hval⟩ := List.getElem?_eq_some.mp ho
      have := hall _ (hval ▸ List.getElem_mem hlt)
      exact absurd this (by simp)
    · exfalso
      obtain ⟨o, ho, _⟩ := hC.2.2.2.2
      obtain ⟨hlt, hval⟩ := List.getElem?_eq_some.mp ho
      have := hall _ (hval ▸ List.getElem_mem hlt)
      exact absurd this (by simp)
    · exact hD
  refine ⟨hD.2.1, hD.2.2.1, ?_, ?_, ?_, ?_⟩
  · intro t ht
    obtain ⟨j, hj⟩ := List.mem_iff_getElem?.mp ht
    rcases hD.2.2.2.2 j t hj with h | h | h
    · exact absurd (h ▸ hall t ht) (by simp)
    · exact absurd (h ▸ hall t ht) (by simp)
    · exact h
  · simp [doneResp, postStore, readFromCache, writeEntry]
  · intro hs0
    simp [doneResp, postStore, readFromCache, writeEntry, hs0]
  · simp [doneResp, postStore, readFromCache, writeEntry]

/-- Witness for C3: two simultaneous callers, one network call, both served
the persisted entry. -/
theorem single_flight_spec_witness :
    (⟨false, ⟨some "body", some (some ⟨some 200, some "now", [("etag", "abc")]⟩)⟩, 1,
      [TPhase.done (some ⟨200, [("etag", "abc"), ("cache-status", cacheHitValue)],
        .stream (some "body")⟩),
       TPhase.done (some ⟨200, [("etag", "abc"), ("cache-status", cacheHitValue)],
        .stream (some "body")⟩)]⟩ : SysState).netCalls = 1 ∧
    (⟨false, ⟨some "body", some (some ⟨some 200, some "now", [("etag", "abc")]⟩)⟩, 1,
      [TPhase.done (some ⟨200, [("etag", "abc"), ("cache-status", cacheHitValue)],
        .stream (some "body")⟩),
       TPhase.done (some ⟨200, [("etag", "abc"), ("cache-status", cacheHitValue)],
        .stream (some "body")⟩)]⟩ : SysState).store =
      postStore ⟨fun _ => none, 0, 100, .str "default",
        ⟨200, [("etag", "abc")], "body"⟩, "now"⟩ ∧
    (∀ t ∈ (⟨false, ⟨some "body", some (some ⟨some 200, some "now", [("etag", "abc")]⟩)⟩, 1,
      [TPhase.done (some ⟨200, [("etag", "abc"), ("cache-status", cacheHitValue)],
        .stream (some "body")⟩),
       TPhase.done (some ⟨200, [("etag", "abc"), ("cache-status", cacheHitValue)],
        .stream (some "body")⟩)]⟩ : SysState).threads,
      t = .done (doneResp ⟨fun _ => none, 0, 100, .str "default",
        ⟨200, [("etag", "abc")], "body"⟩, "now"⟩)) ∧
    (doneResp ⟨fun _ => none, 0, 100, .str "default",
      ⟨200, [("etag", "abc")], "body"⟩, "now"⟩).isSome = true ∧
    ((⟨200, [("etag", "abc")], "body"⟩ : NetResp).status ≠ 0 →
      (doneResp ⟨fun _ => none, 0, 100, .str "default",
        ⟨200, [("etag", "abc")], "body"⟩, "now"⟩).map CachedResponse.status =
        some (⟨200, [("etag", "abc")], "body"⟩ : NetResp).status) ∧
    (doneResp ⟨fun _ => none, 0, 100, .str "default",
      ⟨200, [("etag", "abc")], "body"⟩, "now"⟩).map CachedResponse.body =
      some (.stream (some (⟨200, [("etag", "abc")], "body"⟩ : NetResp).body)) :=
  single_flight_spec
    ⟨fun _ => none, 0, 100, .str "default", ⟨200, [("etag", "abc")], "body"⟩, "now"⟩
    2 [.arrive 0, .arrive 1, .net 0, .resolve 0, .wake 1]
    ⟨false, ⟨some "body", some (some ⟨some 200, some "now", [("etag", "abc")]⟩)⟩, 1,
      [TPhase.done (some ⟨200, [("etag", "abc"), ("cache-status", cacheHitValue)],
        .stream (some "body")⟩),
       TPhase.done (some ⟨200, [("etag", "abc"), ("cache-status", cacheHitValue)],
        .stream (some "body")⟩)]⟩
    (by norm_num) (by decide) (by decide) (by decide)

end FetchFilecache
